import Mathlib

/-!
Verification of the DataFlowGuard backend against its specification.

The definitions below are a shallow embedding, in Lean, of the Python
functions of the repository (file and function names are noted on each
definition).  Pure string manipulation is modelled on lists of
characters; the small regular expressions used by the source are
modelled by hand-written scanners with the exact matching semantics of
the Python re module for those particular patterns (leftmost,
non-overlapping matches; greedy repetition, which for these patterns
coincides with maximal munch except where noted).
-/

namespace DataFlowGuard

/-! ### Character classes (Python re semantics, ASCII range) -/

/-- Python whitespace class backslash-s restricted to ASCII:
space, tab, newline, carriage return, vertical tab, form feed. -/
def isSpaceChar (c : Char) : Bool :=
  c = ' ' || c = '\t' || c = '\n' || c = '\r' || c = '\x0b' || c = '\x0c'

/-- Python word-character class backslash-w restricted to ASCII:
letters, digits and underscore.  Word boundaries of the re module are
defined from this class. -/
def isWordChar (c : Char) : Bool :=
  ('A' ≤ c && c ≤ 'Z') || ('a' ≤ c && c ≤ 'z') || ('0' ≤ c && c ≤ '9') || c = '_'

/-- ASCII decimal digit. -/
def isDigitChar (c : Char) : Bool :=
  '0' ≤ c && c ≤ '9'

/-! ### Comment stripping and whitespace normalisation
(snowflake.py, SnowflakeConnector._validate_sql, lines 178-182) -/

/-- Drop characters up to and including the first newline; none when the
list has no newline.  Used to model the lazy dot-star of the
line-comment regex, which stops at the first newline. -/
def dropToNewline : List Char → Option (List Char)
  | [] => none
  | c :: rest => if c = '\n' then some rest else dropToNewline rest

theorem dropToNewline_length :
    ∀ (l r : List Char), dropToNewline l = some r → r.length < l.length := by
  intro l
  induction l with
  | nil => intro r h; simp [dropToNewline] at h
  | cons c rest ih =>
    intro r h
    rw [dropToNewline] at h
    by_cases hc : c = '\n'
    · simp [hc] at h
      subst h
      simp
    · simp [hc] at h
      exact Nat.lt_trans (ih r h) (by simp)

/-- Model of re.sub with the line-comment pattern (two dashes, lazy
dot-star, newline; flag MULTILINE): every line comment is replaced,
newline included, by a single space; a trailing line comment that is
not terminated by a newline does not match the pattern and is kept. -/
def stripLineCommentsGo : Nat → List Char → List Char
  | _, [] => []
  | 0, l => l
  | fuel + 1, c :: rest =>
    if c = '-' ∧ rest.head? = some '-' then
      match dropToNewline rest.tail with
      | some rest2 => ' ' :: stripLineCommentsGo fuel rest2
      | none => c :: rest
    else c :: stripLineCommentsGo fuel rest

/-- The scanner above with enough fuel for the whole input (every step
consumes at least one character, so the length of the input suffices;
the fuel only serves to make the recursion structural). -/
def stripLineComments (l : List Char) : List Char :=
  stripLineCommentsGo l.length l

/-- Drop characters up to and including the first star-slash pair; none
when the list contains no such pair. -/
def dropToStarSlash : List Char → Option (List Char)
  | [] => none
  | c :: rest =>
    if c = '*' ∧ rest.head? = some '/' then some rest.tail
    else dropToStarSlash rest

theorem dropToStarSlash_length :
    ∀ (l r : List Char), dropToStarSlash l = some r → r.length < l.length := by
  intro l
  induction l with
  | nil => intro r h; simp [dropToStarSlash] at h
  | cons c rest ih =>
    intro r h
    rw [dropToStarSlash] at h
    split at h
    · rename_i hc
      simp at h
      subst h
      have : rest.tail.length ≤ rest.length := by cases rest <;> simp
      simp only [List.length_cons]
      omega
    · exact Nat.lt_trans (ih r h) (by simp)

/-- Model of re.sub with the block-comment pattern (slash-star, lazy
dot-star, star-slash; flag DOTALL): every block comment, possibly
spanning lines, is replaced by a single space; an unterminated block
comment does not match and is kept (once the closing star-slash is
missing, no later occurrence can match either, so the remainder is
returned unchanged). -/
def stripBlockCommentsGo : Nat → List Char → List Char
  | _, [] => []
  | 0, l => l
  | fuel + 1, c :: rest =>
    if c = '/' ∧ rest.head? = some '*' then
      match dropToStarSlash rest.tail with
      | some rest2 => ' ' :: stripBlockCommentsGo fuel rest2
      | none => c :: rest
    else c :: stripBlockCommentsGo fuel rest

/-- The scanner above with enough fuel for the whole input. -/
def stripBlockComments (l : List Char) : List Char :=
  stripBlockCommentsGo l.length l

/-- Model of re.sub with the pattern backslash-s-plus replacing every
maximal whitespace run by a single space. -/
def collapseWsGo : Nat → List Char → List Char
  | _, [] => []
  | 0, l => l
  | fuel + 1, c :: rest =>
    if isSpaceChar c then ' ' :: collapseWsGo fuel (rest.dropWhile isSpaceChar)
    else c :: collapseWsGo fuel rest

/-- The scanner above with enough fuel for the whole input. -/
def collapseWs (l : List Char) : List Char :=
  collapseWsGo l.length l

/-- Python str.strip: remove leading and trailing whitespace. -/
def stripEnds (l : List Char) : List Char :=
  ((l.dropWhile isSpaceChar).reverse.dropWhile isSpaceChar).reverse

/-- Normalised SQL of _validate_sql: line comments stripped, block
comments stripped, whitespace collapsed, ends trimmed (the local
variable sql_clean of the source). -/
def normalizeSql (sql : String) : List Char :=
  stripEnds (collapseWs (stripBlockComments (stripLineComments sql.data)))

/-- Uppercased normalised SQL (the local variable sql_upper).  Python
str.upper on the ASCII SQL surface is character-wise toUpper. -/
def sqlUpperOf (sql : String) : List Char :=
  (normalizeSql sql).map Char.toUpper

/-! ### Statement splitting and the keyword / prefix checks
(snowflake.py, SnowflakeConnector._validate_sql, lines 184-203) -/

/-- Python str.split on a semicolon: the list of (possibly empty)
chunks between semicolons. -/
def splitSemi : List Char → List (List Char)
  | [] => [[]]
  | c :: rest =>
    if c = ';' then [] :: splitSemi rest
    else
      match splitSemi rest with
      | [] => [[c]]
      | p :: ps => (c :: p) :: ps

/-- The non-empty stripped statements of the normalised SQL (the local
variable statements of the source). -/
def statementsOf (sql : String) : List (List Char) :=
  ((splitSemi (normalizeSql sql)).map stripEnds).filter (fun s => s ≠ [])

/-- Allowed statement prefixes of _validate_sql (checked with
str.startswith on the uppercased normalised SQL). -/
def allowedStarts : List (List Char) :=
  ["SELECT".data, "WITH".data, "EXPLAIN".data]

/-- The forbidden keyword list of the source
(snowflake.py, SnowflakeConnector._forbidden_keywords, lines 42-46). -/
def forbidden_keywords : List String :=
  ["INSERT", "UPDATE", "DELETE", "MERGE", "CREATE", "ALTER", "DROP",
   "TRUNCATE", "GRANT", "REVOKE", "CALL", "USE", "COPY", "PUT", "GET",
   "BEGIN", "COMMIT", "ROLLBACK", "SET", "UNSET"]

/-- True when the previous character (none at the start of the string)
forms a word boundary with a first matched character that is a word
character: the boundary holds iff the previous character is absent or
not a word character. -/
def boundaryBeforeWord (prev : Option Char) : Bool :=
  match prev with
  | none => true
  | some p => !isWordChar p

/-- After a match ending in a word character, the re word boundary
holds iff the next character is absent or not a word character. -/
def boundaryAfterWord (rest : List Char) : Bool :=
  match rest with
  | [] => true
  | c :: _ => !isWordChar c

/-- Scanner for re.search of a whole-word keyword (backslash-b, the
keyword, backslash-b): the keyword consists of word characters only, so
the two boundaries reduce to the neighbouring characters not being word
characters.  The scanner keeps the previous character while walking the
string. -/
def containsWordFrom (kw : List Char) (prev : Option Char) : List Char → Bool
  | [] => false
  | c :: rest =>
    (boundaryBeforeWord prev && kw.isPrefixOf (c :: rest)
      && boundaryAfterWord ((c :: rest).drop kw.length))
    || containsWordFrom kw (some c) rest

/-- re.search of a whole-word, word-characters-only keyword in a string. -/
def containsWholeWord (kw : List Char) (s : List Char) : Bool :=
  containsWordFrom kw none s

/-! ### Schema reference extraction
(snowflake.py, SnowflakeConnector._validate_schema_access, lines 205-227) -/

/-- First character of an identifier in the schema patterns:
uppercase letter or underscore. -/
def isIdentStart (c : Char) : Bool :=
  ('A' ≤ c && c ≤ 'Z') || c = '_'

/-- Continuation character of an identifier in the schema patterns:
uppercase letter, digit or underscore. -/
def isIdentChar (c : Char) : Bool :=
  ('A' ≤ c && c ≤ 'Z') || ('0' ≤ c && c ≤ '9') || c = '_'

/-- Parse one identifier ([A-Z_][A-Z0-9_]*, greedy) returning the
identifier and the rest.  Greedy matching is exact maximal munch here:
giving back a character would put a word character where the pattern
next requires a dot or ends. -/
def parseIdent : List Char → Option (List Char × List Char)
  | [] => none
  | c :: rest =>
    if isIdentStart c then
      let tl := rest.takeWhile isIdentChar
      some (c :: tl, rest.dropWhile isIdentChar)
    else none

/-- Parse a dotted three-part identifier (the capture group shared by
the three schema patterns), returning the matched text and the rest. -/
def parseTriple (s : List Char) : Option (List Char × List Char) :=
  match parseIdent s with
  | none => none
  | some (i1, r1) =>
    match r1 with
    | '.' :: r2 =>
      match parseIdent r2 with
      | none => none
      | some (i2, r3) =>
        match r3 with
        | '.' :: r4 =>
          match parseIdent r4 with
          | none => none
          | some (i3, r5) => some (i1 ++ '.' :: i2 ++ '.' :: i3, r5)
        | _ => none
    | _ => none

theorem parseIdent_length :
    ∀ (s i r : List Char), parseIdent s = some (i, r) → r.length < s.length := by
  intro s i r h
  match s with
  | [] => simp [parseIdent] at h
  | c :: rest =>
    rw [parseIdent] at h
    split at h
    · simp at h
      have : (rest.dropWhile isIdentChar).length ≤ rest.length :=
        (List.dropWhile_sublist isIdentChar).length_le
      rw [← h.2]
      simp only [List.length_cons]
      omega
    · simp at h

theorem parseTriple_length :
    ∀ (s g r : List Char), parseTriple s = some (g, r) → r.length < s.length := by
  intro s g r h
  rw [parseTriple] at h
  split at h
  · simp at h
  · rename_i i1 r1 h1
    split at h
    · rename_i r2
      split at h
      · simp at h
      · rename_i i2 r3 h2
        split at h
        · rename_i r4
          split at h
          · simp at h
          · rename_i i3 r5 h3
            simp at h
            have l1 := parseIdent_length _ _ _ h1
            have l2 := parseIdent_length _ _ _ h2
            have l3 := parseIdent_length _ _ _ h3
            rw [← h.2]
            simp only [List.length_cons] at l1 l2
            omega
        · simp at h
    · simp at h

/-- findall scanner for the bare three-part pattern (word boundary then
the dotted triple): walks the string keeping the previous character;
at a word boundary it tries the triple, and on success continues after
the match (non-overlapping), with the previous character being the last
character of the match. -/
def findTriplesGo : Nat → Option Char → List Char → List (List Char)
  | _, _, [] => []
  | 0, _, _ => []
  | fuel + 1, prev, c :: rest =>
    if boundaryBeforeWord prev then
      match parseTriple (c :: rest) with
      | some (g, r) => g :: findTriplesGo fuel g.getLast? r
      | none => findTriplesGo fuel (some c) rest
    else findTriplesGo fuel (some c) rest

/-- The scanner above with enough fuel for the whole input. -/
def findTriplesFrom (prev : Option Char) (l : List Char) : List (List Char) :=
  findTriplesGo l.length prev l

/-- findall scanner for the two keyword patterns (word boundary, the
literal FROM or JOIN, one or more whitespace characters, then the
dotted triple capture group).  On a failed attempt the scan resumes one
character further, as re does. -/
def findKwTriplesGo (kw : List Char) : Nat → Option Char → List Char → List (List Char)
  | _, _, [] => []
  | 0, _, _ => []
  | fuel + 1, prev, c :: rest =>
    if boundaryBeforeWord prev && kw.isPrefixOf (c :: rest)
        && ((c :: rest).drop kw.length).takeWhile isSpaceChar ≠ [] then
      match parseTriple (((c :: rest).drop kw.length).dropWhile isSpaceChar) with
      | some (g, r) => g :: findKwTriplesGo kw fuel g.getLast? r
      | none => findKwTriplesGo kw fuel (some c) rest
    else findKwTriplesGo kw fuel (some c) rest

/-- The scanner above with enough fuel for the whole input. -/
def findKwTriplesFrom (kw : List Char) (prev : Option Char) (l : List Char) : List (List Char) :=
  findKwTriplesGo kw l.length prev l

/-- The db.schema part of a matched triple (the source splits the match
on a dot and joins the first two parts). -/
def schemaPart (g : List Char) : String :=
  let p1 := g.takeWhile (fun c => c ≠ '.')
  let r := (g.dropWhile (fun c => c ≠ '.')).tail
  let p2 := r.takeWhile (fun c => c ≠ '.')
  String.mk (p1 ++ '.' :: p2)

/-- The set of db.schema references of the SQL, as collected by
_validate_schema_access: the union of the matches of the FROM pattern,
the JOIN pattern and the bare pattern, each reduced to its first two
dotted parts and deduplicated (the source stores them in a set; the
model keeps the first occurrence order, which only affects which
offending reference is reported, not whether one is reported). -/
def schemaRefs (sqlUpper : List Char) : List String :=
  ((findKwTriplesFrom "FROM".data none sqlUpper
    ++ findKwTriplesFrom "JOIN".data none sqlUpper
    ++ findTriplesFrom none sqlUpper).map schemaPart).dedup

/-- Decidable equality for Except values, used to evaluate the model on
concrete inputs. -/
instance exceptDecEq {e a : Type} [DecidableEq e] [DecidableEq a] :
    DecidableEq (Except e a) := fun x y =>
  match x, y with
  | .ok u, .ok v =>
    if h : u = v then isTrue (by rw [h]) else isFalse (by intro hc; cases hc; exact h rfl)
  | .error u, .error v =>
    if h : u = v then isTrue (by rw [h]) else isFalse (by intro hc; cases hc; exact h rfl)
  | .ok _, .error _ => isFalse (by intro hc; cases hc)
  | .error _, .ok _ => isFalse (by intro hc; cases hc)

/-- The single enumerated failure reason of the guardrail
(_validate_sql raises ValueError; the constructor records which check
failed and its payload). -/
inductive GuardErr where
  | multipleStatements : GuardErr
  | disallowedStart : GuardErr
  | forbiddenKeyword : String → GuardErr
  | schemaNotAllowed : String → GuardErr
deriving DecidableEq, Repr

/-- Shallow embedding of SnowflakeConnector._validate_sql
(snowflake.py lines 176-203).  The allowed parameter is the
allowed_schemas list of the connector (empty when the allowlist is not
configured).  The checks run in source order: single statement, allowed
statement start, forbidden keywords, schema allowlist. -/
def validate_sql (allowed : List String) (sql : String) : Except GuardErr Unit :=
  if (statementsOf sql).length > 1 then .error .multipleStatements
  else if !(allowedStarts.any (fun p => p.isPrefixOf (sqlUpperOf sql))) then
    .error .disallowedStart
  else
    match forbidden_keywords.find? (fun kw => containsWholeWord kw.data (sqlUpperOf sql)) with
    | some kw => .error (.forbiddenKeyword kw)
    | none =>
      if allowed ≠ [] then
        match (schemaRefs (sqlUpperOf sql)).find? (fun r => !(allowed.contains r)) with
        | some r => .error (.schemaNotAllowed r)
        | none => .ok ()
      else .ok ()

/-! ### Helper lemmas about the guardrail -/

theorem splitSemi_ne_nil : ∀ (l : List Char), splitSemi l ≠ [] := by
  intro l
  cases l with
  | nil => simp [splitSemi]
  | cons c rest =>
    rw [splitSemi]
    split
    · simp
    · split <;> simp

theorem dropWhile_append_singleton_ne_nil (c : Char) (h : isSpaceChar c = false) :
    ∀ (l : List Char), (l ++ [c]).dropWhile isSpaceChar ≠ [] := by
  intro l
  induction l with
  | nil => simp [List.dropWhile, h]
  | cons a t ih =>
    simp only [List.cons_append, List.dropWhile]
    cases ha : isSpaceChar a <;> simp [ha, ih]

theorem stripEnds_cons_ne_nil (c : Char) (p : List Char) (h : isSpaceChar c = false) :
    stripEnds (c :: p) ≠ [] := by
  unfold stripEnds
  rw [List.dropWhile_cons, h]
  simp only [Bool.false_eq_true, if_false]
  intro hEq
  rw [List.reverse_eq_nil_iff] at hEq
  have := dropWhile_append_singleton_ne_nil c h p.reverse
  rw [show p.reverse ++ [c] = (c :: p).reverse by simp] at this
  exact this hEq

theorem statementsOf_ne_nil (sql : String) (c : Char) (t : List Char)
    (hn : normalizeSql sql = c :: t)
    (hc1 : isSpaceChar c = false) (hc2 : c ≠ ';') :
    statementsOf sql ≠ [] := by
  unfold statementsOf
  rw [hn]
  rw [splitSemi]
  simp only [hc2, if_false]
  have hsp := splitSemi_ne_nil t
  match hss : splitSemi t with
  | [] => exact absurd hss hsp
  | p :: ps =>
    simp only [List.map_cons, List.filter_cons]
    rw [if_pos (by simp [stripEnds_cons_ne_nil c p hc1])]
    simp

theorem head_upper_not_space_semi (c : Char)
    (h : c.toUpper = 'S' ∨ c.toUpper = 'W' ∨ c.toUpper = 'E') :
    isSpaceChar c = false ∧ c ≠ ';' := by
  constructor
  · cases hs : isSpaceChar c
    · rfl
    · exfalso
      simp only [isSpaceChar, Bool.or_eq_true, decide_eq_true_eq] at hs
      rcases hs with ((((h1 | h1) | h1) | h1) | h1) | h1 <;> subst h1 <;>
        rcases h with h2 | h2 | h2 <;> exact absurd h2 (by decide)
  · intro hEq
    subst hEq
    rcases h with h2 | h2 | h2 <;> exact absurd h2 (by decide)

theorem normalize_head_of_start (sql : String)
    (h : allowedStarts.any (fun p => p.isPrefixOf (sqlUpperOf sql)) = true) :
    ∃ c t, normalizeSql sql = c :: t ∧
      (c.toUpper = 'S' ∨ c.toUpper = 'W' ∨ c.toUpper = 'E') := by
  simp only [allowedStarts, List.any_cons, List.any_nil, Bool.or_eq_true,
    Bool.or_false] at h
  have hhead : ∃ c0 u, sqlUpperOf sql = c0 :: u ∧ (c0 = 'S' ∨ c0 = 'W' ∨ c0 = 'E') := by
    rcases h with h1 | h1 | h1 <;>
      rcases List.isPrefixOf_iff_prefix.mp h1 with ⟨u, hu⟩
    · exact ⟨'S', "ELECT".data ++ u, by simpa using hu.symm, Or.inl rfl⟩
    · exact ⟨'W', "ITH".data ++ u, by simpa using hu.symm, Or.inr (Or.inl rfl)⟩
    · exact ⟨'E', "XPLAIN".data ++ u, by simpa using hu.symm, Or.inr (Or.inr rfl)⟩
  rcases hhead with ⟨c0, u, hu, hc0⟩
  unfold sqlUpperOf at hu
  match hm : normalizeSql sql with
  | [] => rw [hm] at hu; simp at hu
  | c :: t =>
    rw [hm] at hu
    simp only [List.map_cons, List.cons.injEq] at hu
    refine ⟨c, t, rfl, ?_⟩
    rcases hc0 with h1 | h1 | h1 <;> rw [← hu.1] at h1 <;> simp [h1]

/-- Modelled from the words of the spec for comparison with the source
behaviour: the first non-whitespace, non-comment token of a statement,
uppercased, is the leading maximal word-character run of the normalised
uppercased SQL. -/
def specFirstToken (sql : String) : String :=
  String.mk ((sqlUpperOf sql).takeWhile isWordChar)

/-- C1 (amended): every SQL accepted by _validate_sql contains, after
comment stripping and whitespace collapsing, no whole-word match of any
forbidden keyword; splitting it on semicolons yields exactly one
non-empty statement; and its uppercased normalised text starts with
SELECT, WITH or EXPLAIN as a string prefix (the source uses
str.startswith, not a token comparison, so the first token itself need
not be one of the three words). -/
theorem validate_sql_accept_invariants (allowed : List String) (sql : String)
    (h : validate_sql allowed sql = .ok ()) :
    (∀ kw ∈ forbidden_keywords, containsWholeWord kw.data (sqlUpperOf sql) = false)
    ∧ (statementsOf sql).length = 1
    ∧ allowedStarts.any (fun p => p.isPrefixOf (sqlUpperOf sql)) = true := by
  unfold validate_sql at h
  split at h
  · exact absurd h (by simp)
  · split at h
    · exact absurd h (by simp)
    · rename_i hlen hpre
      split at h
      · exact absurd h (by simp)
      · rename_i hfind
        have hstart : allowedStarts.any (fun p => p.isPrefixOf (sqlUpperOf sql)) = true := by
          revert hpre
          cases allowedStarts.any (fun p => p.isPrefixOf (sqlUpperOf sql)) <;> simp
        refine ⟨?_, ?_, hstart⟩
        · intro kw hkw
          have := List.find?_eq_none.mp hfind kw hkw
          revert this
          cases containsWholeWord kw.data (sqlUpperOf sql) <;> simp
        · rcases normalize_head_of_start sql hstart with ⟨c, t, hn, hc⟩
          rcases head_upper_not_space_semi c hc with ⟨hc1, hc2⟩
          have hne := statementsOf_ne_nil sql c t hn hc1 hc2
          have hle : ¬ (statementsOf sql).length > 1 := hlen
          cases hl : (statementsOf sql).length with
          | zero => exact absurd (List.length_eq_zero.mp hl) hne
          | succ n =>
            cases n with
            | zero => rfl
            | succ m => rw [hl] at hle; omega

/-- C1 witness: a concrete accepted statement, with the invariants
evaluated at it. -/
theorem validate_sql_accept_invariants_witness :
    validate_sql [] "SELECT A FROM T" = .ok ()
    ∧ ((∀ kw ∈ forbidden_keywords,
          containsWholeWord kw.data (sqlUpperOf "SELECT A FROM T") = false)
       ∧ (statementsOf "SELECT A FROM T").length = 1
       ∧ allowedStarts.any (fun p => p.isPrefixOf (sqlUpperOf "SELECT A FROM T")) = true) :=
  ⟨by decide, validate_sql_accept_invariants [] "SELECT A FROM T" (by decide)⟩

/-- C1 counterexample: the statement WITHDRAWAL is accepted by
_validate_sql (it passes the startswith check through the WITH string
prefix), although its first token does not uppercase to SELECT, WITH or
EXPLAIN; so the first-token reading of the claim is false. -/
theorem validate_sql_accepts_nontoken_start :
    validate_sql [] "WITHDRAWAL" = .ok ()
    ∧ specFirstToken "WITHDRAWAL" ∉ (["SELECT", "WITH", "EXPLAIN"] : List String) := by
  decide

/-- C2 (amended): validation fails for every SQL whose normalised
uppercase contains a whole-word match of one of the twenty denylisted
keywords of the source (the failure is not necessarily the
forbidden-keyword error: the single-statement and statement-start
checks run first). -/
theorem validate_sql_rejects_forbidden_keyword (allowed : List String) (sql : String)
    (kw : String) (h1 : kw ∈ forbidden_keywords)
    (h2 : containsWholeWord kw.data (sqlUpperOf sql) = true) :
    validate_sql allowed sql ≠ .ok () := by
  unfold validate_sql
  split
  · simp
  · split
    · simp
    · split
      · simp
      · rename_i hfind
        have := List.find?_eq_none.mp hfind kw h1
        simp [h2] at this

/-- C2 witness: a single SELECT statement containing the whole word
DROP is rejected. -/
theorem validate_sql_rejects_forbidden_keyword_witness :
    ("DROP" ∈ forbidden_keywords
      ∧ containsWholeWord "DROP".data (sqlUpperOf "SELECT X FROM DROP") = true)
    ∧ validate_sql [] "SELECT X FROM DROP" ≠ .ok () :=
  ⟨⟨by decide, by decide⟩,
    validate_sql_rejects_forbidden_keyword [] "SELECT X FROM DROP" "DROP"
      (by decide) (by decide)⟩

/-- C2 counterexample: the denylist of the source has twenty keywords,
not twenty-four; single SELECT statements containing whole-word RENAME,
EXECUTE, VACUUM or ANALYZE all pass validation. -/
theorem validate_sql_accepts_missing_keywords :
    (containsWholeWord "RENAME".data (sqlUpperOf "SELECT RENAME") = true
      ∧ validate_sql [] "SELECT RENAME" = .ok ())
    ∧ (containsWholeWord "EXECUTE".data (sqlUpperOf "SELECT EXECUTE") = true
      ∧ validate_sql [] "SELECT EXECUTE" = .ok ())
    ∧ (containsWholeWord "VACUUM".data (sqlUpperOf "SELECT VACUUM") = true
      ∧ validate_sql [] "SELECT VACUUM" = .ok ())
    ∧ (containsWholeWord "ANALYZE".data (sqlUpperOf "SELECT ANALYZE") = true
      ∧ validate_sql [] "SELECT ANALYZE" = .ok ()) := by
  decide

/-- C10: when the schema allowlist is configured (non-empty), any SQL
from which _validate_schema_access extracts a db.schema reference that
is not in the allowlist is rejected; the extraction includes the bare
three-part pattern, which matches anywhere in the statement, not only
after FROM or JOIN. -/
theorem validate_sql_schema_allowlist (allowed : List String) (sql : String) (r : String)
    (h1 : allowed ≠ []) (h2 : r ∈ schemaRefs (sqlUpperOf sql))
    (h3 : allowed.contains r = false) :
    validate_sql allowed sql ≠ .ok () := by
  intro hok
  unfold validate_sql at hok
  split at hok
  · exact absurd hok (by simp)
  · split at hok
    · exact absurd hok (by simp)
    · split at hok
      · exact absurd hok (by simp)
      · split at hok
        · exact absurd hok (by simp)
        · rename_i hfd
          have := List.find?_eq_none.mp hfd r h2
          simp at this h3
          exact h3 this

/-- C10 witness: with allowlist PROD.RAW, a query whose only three-part
reference DB2.SCH2.TBL.COL occurs in the SELECT list (the FROM clause
names a plain table) is rejected. -/
theorem validate_sql_schema_allowlist_witness :
    ((["PROD.RAW"] : List String) ≠ []
      ∧ "DB2.SCH2" ∈ schemaRefs (sqlUpperOf "SELECT DB2.SCH2.TBL.COL FROM TBL")
      ∧ (["PROD.RAW"] : List String).contains "DB2.SCH2" = false)
    ∧ validate_sql ["PROD.RAW"] "SELECT DB2.SCH2.TBL.COL FROM TBL" ≠ .ok () :=
  ⟨⟨by decide, by decide, by decide⟩,
    validate_sql_schema_allowlist ["PROD.RAW"] "SELECT DB2.SCH2.TBL.COL FROM TBL"
      "DB2.SCH2" (by decide) (by decide) (by decide)⟩

/-! ### PII redaction policy
(policies/pii_redaction.py, PIIRedactionPolicy) -/

/-- Values occurring in warehouse result rows: SQL null (Python None),
strings, integers and booleans. -/
inductive DValue where
  | null : DValue
  | str : String → DValue
  | int : Int → DValue
  | bool : Bool → DValue
deriving DecidableEq, Repr

/-- Python str() of a row value (str() of None is never taken by the
source: null values are returned before stringification). -/
def pyStr : DValue → String
  | .null => "None"
  | .str s => s
  | .int n => toString n
  | .bool b => if b then "True" else "False"

/-- A result row: an insertion-ordered dictionary with string keys. -/
abbrev Row := List (String × DValue)

/-- Suffix of a list right after the first occurrence of a pattern;
none when the pattern does not occur. -/
def dropAfterSub (pat : List Char) : List Char → Option (List Char)
  | [] => if pat = [] then some [] else none
  | c :: rest =>
    if pat.isPrefixOf (c :: rest) then some ((c :: rest).drop pat.length)
    else dropAfterSub pat rest

/-- Substring containment. -/
def containsSub (pat s : List Char) : Bool :=
  (dropAfterSub pat s).isSome

/-- Containment of one literal followed (at or after the end of its
first occurrence) by a second literal: the shape of the two-literal
column patterns dot-star a dot-star b dot-star. -/
def matchesAfter (a b s : List Char) : Bool :=
  match dropAfterSub a s with
  | some r => containsSub b r
  | none => false

/-- The first line of the column name, lowercased.  re.match anchors
the pattern dot-star-x-dot-star at the start and the dot cannot cross a
newline, so the pattern matches exactly when the literal occurs in the
first line; IGNORECASE is modelled by lowercasing. -/
def firstLineLower (column : String) : List Char :=
  (column.data.takeWhile (fun c => c ≠ '\n')).map Char.toLower

/-- PIIRedactionPolicy._is_pii_column (pii_redaction.py lines 100-102),
with the nine column-name patterns of the constructor (lines 27-37). -/
def is_pii_column (column : String) : Bool :=
  let l := firstLineLower column
  containsSub "email".data l || containsSub "phone".data l || containsSub "ssn".data l
    || matchesAfter "social".data "security".data l
    || matchesAfter "credit".data "card".data l
    || containsSub "address".data l || containsSub "name".data l
    || containsSub "dob".data l
    || matchesAfter "birth".data "date".data l

/-- PIIRedactionPolicy._mask_value (pii_redaction.py lines 104-111):
full asterisks up to length 4, keep 2 characters of prefix and suffix
for lengths 5 to 8, keep 3 for longer values. -/
def mask_value (s : String) : String :=
  let n := s.length
  if n ≤ 4 then String.mk (List.replicate n '*')
  else if n ≤ 8 then
    String.mk (s.data.take 2 ++ List.replicate (n - 4) '*' ++ s.data.drop (n - 2))
  else
    String.mk (s.data.take 3 ++ List.replicate (n - 6) '*' ++ s.data.drop (n - 3))

/-! Content-pattern matchers of the constructor (pii_redaction.py lines
18-24).  Each matcher takes the text at a candidate position and
returns the remainder after a match; the word boundary at the start of
every pattern is checked by the scanner.  Greedy repetition with
backtracking is modelled exactly; for the digit patterns maximal munch
is exact because giving back a digit puts a digit where the pattern
next requires a separator, a dot or a boundary. -/

/-- Exactly n leading decimal digits, returning the rest (more digits
may follow; the surrounding pattern decides whether that is legal). -/
def takeCountDigits : Nat → List Char → Option (List Char)
  | 0, l => some l
  | _ + 1, [] => none
  | n + 1, c :: rest => if isDigitChar c then takeCountDigits n rest else none

/-- The continuations of an optional separator class, greedily ordered:
with the separator consumed first when present, then without. -/
def optSepConts (sep : Char → Bool) (l : List Char) : List (List Char) :=
  match l with
  | c :: r => if sep c then [r, l] else [l]
  | [] => [l]

/-- True when the list starts with a word character (the re word
boundary after a match ending in a word character requires this to be
false). -/
def headIsWord (l : List Char) : Bool :=
  match l with
  | [] => false
  | c :: _ => isWordChar c

/-- The re word boundary between a last consumed character and the
remainder: exactly one side is a word character. -/
def xorBoundary (last : Char) (rest : List Char) : Bool :=
  isWordChar last != headIsWord rest

/-- NANP phone pattern: boundary, three digits, optional dash or dot,
three digits, optional dash or dot, four digits, boundary. -/
def matchPhoneAt (s : List Char) : Option (List Char) :=
  (takeCountDigits 3 s).bind fun r1 =>
    (optSepConts (fun c => c = '-' || c = '.') r1).findSome? fun r2 =>
      (takeCountDigits 3 r2).bind fun r3 =>
        (optSepConts (fun c => c = '-' || c = '.') r3).findSome? fun r4 =>
          (takeCountDigits 4 r4).bind fun r5 =>
            if headIsWord r5 then none else some r5

/-- SSN pattern: boundary, three digits, optional dash, two digits,
optional dash, four digits, boundary. -/
def matchSsnAt (s : List Char) : Option (List Char) :=
  (takeCountDigits 3 s).bind fun r1 =>
    (optSepConts (fun c => c = '-') r1).findSome? fun r2 =>
      (takeCountDigits 2 r2).bind fun r3 =>
        (optSepConts (fun c => c = '-') r3).findSome? fun r4 =>
          (takeCountDigits 4 r4).bind fun r5 =>
            if headIsWord r5 then none else some r5

/-- Credit-card pattern: boundary, four groups of four digits separated
by an optional dash or whitespace, boundary. -/
def matchCreditAt (s : List Char) : Option (List Char) :=
  (takeCountDigits 4 s).bind fun r1 =>
    (optSepConts (fun c => c = '-' || isSpaceChar c) r1).findSome? fun r2 =>
      (takeCountDigits 4 r2).bind fun r3 =>
        (optSepConts (fun c => c = '-' || isSpaceChar c) r3).findSome? fun r4 =>
          (takeCountDigits 4 r4).bind fun r5 =>
            (optSepConts (fun c => c = '-' || isSpaceChar c) r5).findSome? fun r6 =>
              (takeCountDigits 4 r6).bind fun r7 =>
                if headIsWord r7 then none else some r7

/-- One to three digits followed by a literal dot, greedily. -/
def ipOctetDot (l : List Char) : Option (List Char) :=
  [3, 2, 1].findSome? fun n =>
    (takeCountDigits n l).bind fun r =>
      match r with
      | '.' :: r2 => some r2
      | _ => none

/-- IPv4 pattern: boundary, three octet-dot groups, then one to three
digits and a boundary (a fourth digit or a trailing word character
defeats every greedy choice, so the final group reduces to the maximal
digit run being one to three digits long with no word character after). -/
def matchIpAt (s : List Char) : Option (List Char) :=
  (ipOctetDot s).bind fun r1 =>
    (ipOctetDot r1).bind fun r2 =>
      (ipOctetDot r2).bind fun r3 =>
        let ds := r3.takeWhile isDigitChar
        if 1 ≤ ds.length && ds.length ≤ 3 && !headIsWord (r3.drop ds.length) then
          some (r3.drop ds.length)
        else none

/-- Character class of the local part of the email pattern. -/
def emailLocalChar (c : Char) : Bool :=
  ('A' ≤ c && c ≤ 'Z') || ('a' ≤ c && c ≤ 'z') || isDigitChar c
    || c = '.' || c = '_' || c = '%' || c = '+' || c = '-'

/-- Character class of the domain part of the email pattern. -/
def emailDomainChar (c : Char) : Bool :=
  ('A' ≤ c && c ≤ 'Z') || ('a' ≤ c && c ≤ 'z') || isDigitChar c || c = '.' || c = '-'

/-- Character class of the final part of the email pattern: the source
writes the class [A-Z|a-z], which contains the pipe character. -/
def emailTldChar (c : Char) : Bool :=
  ('A' ≤ c && c ≤ 'Z') || ('a' ≤ c && c ≤ 'z') || c = '|'

/-- Split points n, n-1, ..., 1 in greedy order. -/
def descTo1 (n : Nat) : List Nat :=
  (List.range n).map (fun i => n - i)

/-- Split points n, n-1, ..., 2 in greedy order. -/
def descTo2 (n : Nat) : List Nat :=
  (List.range (n - 1)).map (fun i => n - i)

/-- The tail of the email pattern after the dot: two or more
final-class characters, greedily, then a word boundary. -/
def emailTldMatch (l : List Char) : Option (List Char) :=
  let run := l.takeWhile emailTldChar
  (descTo2 run.length).findSome? fun j =>
    match (run.take j).getLast? with
    | some last => if xorBoundary last (l.drop j) then some (l.drop j) else none
    | none => none

/-- Email pattern: boundary, a non-empty local part, the at sign, a
non-empty domain run with a backtracking split before a literal dot,
then the final part.  The greedy engine tries the longest domain first
and, inside each choice, the longest final part first, exactly as the
re module does. -/
def matchEmailAt (s : List Char) : Option (List Char) :=
  let loc := s.takeWhile emailLocalChar
  if loc.isEmpty then none
  else
    match s.drop loc.length with
    | '@' :: r2 =>
      let dom := r2.takeWhile emailDomainChar
      if dom.isEmpty then none
      else
        (descTo1 dom.length).findSome? fun k =>
          match r2.drop k with
          | '.' :: r3 => emailTldMatch r3
          | _ => none
    | _ => none

/-- Scanner for re.sub over one pattern: walks the text keeping the
previous character; at a word boundary it tries the matcher, replaces a
match with the token and resumes after it (non-overlapping), and
reports whether any match was found (which also models re.search,
taken on the same pattern by the source before substituting).  The fuel
is the length of the text; every step consumes at least one character. -/
def scanSubGo (m : List Char → Option (List Char)) (tok : List Char) :
    Nat → Option Char → List Char → (Bool × List Char)
  | _, _, [] => (false, [])
  | 0, _, l => (false, l)
  | fuel + 1, prev, c :: rest =>
    if ((match prev with | none => false | some p => isWordChar p) != isWordChar c) then
      match m (c :: rest) with
      | some r =>
        if r.length < (c :: rest).length then
          let consumed := (c :: rest).take ((c :: rest).length - r.length)
          let out := scanSubGo m tok fuel consumed.getLast? r
          (true, tok ++ out.2)
        else
          let out := scanSubGo m tok fuel (some c) rest
          (out.1, c :: out.2)
      | none =>
        let out := scanSubGo m tok fuel (some c) rest
        (out.1, c :: out.2)
    else
      let out := scanSubGo m tok fuel (some c) rest
      (out.1, c :: out.2)

/-- re.search / re.sub pair over one pattern: found flag and rewritten
text. -/
def scanSub (m : List Char → Option (List Char)) (tok : List Char) (s : List Char) :
    Bool × List Char :=
  scanSubGo m tok s.length none s

/-- The content patterns of the constructor in dictionary order, each
with the uppercased name used in the substitution token. -/
def piiContentPatterns : List (String × (List Char → Option (List Char))) :=
  [("EMAIL", matchEmailAt), ("PHONE", matchPhoneAt), ("SSN", matchSsnAt),
   ("CREDIT_CARD", matchCreditAt), ("IP_ADDRESS", matchIpAt)]

/-- PIIRedactionPolicy._redact_column_value (pii_redaction.py lines
81-98): null passes through; a PII-named column is masked; otherwise
the first content pattern that matches anywhere in the stringified
value rewrites all its matches to the redaction token; otherwise the
value is returned unchanged. -/
def redact_column_value (column : String) (v : DValue) : DValue :=
  match v with
  | .null => .null
  | _ =>
    let sv := pyStr v
    if is_pii_column column then .str (mask_value sv)
    else
      match piiContentPatterns.find?
          (fun p => (scanSub p.2 ("[REDACTED_" ++ p.1 ++ "]").data sv.data).1) with
      | some p => .str (String.mk (scanSub p.2 ("[REDACTED_" ++ p.1 ++ "]").data sv.data).2)
      | none => v

/-- PIIRedactionPolicy.redact_sample_data (pii_redaction.py lines
39-60) with redaction enabled: every value of every row is passed
through _redact_column_value under its column name.  The except branch
of the source (return an empty list if redaction itself raises) has no
counterpart here: the model is total. -/
def redact_sample_data (rows : List Row) : List Row :=
  rows.map (fun row => row.map (fun kv => (kv.1, redact_column_value kv.1 kv.2)))

/-- C4 counterexample: the empty string in a PII-named column is
returned unchanged (its mask is itself), and a four-character value is
fully masked, keeping zero characters rather than 2 or 3; so neither
the strict it-always-differs reading nor the 2-or-3-characters reading
of the claim holds. -/
theorem redact_keeps_empty_pii_value :
    is_pii_column "customer_email" = true
    ∧ redact_column_value "customer_email" (DValue.str "") = DValue.str ""
    ∧ mask_value "abcd" = "****" := by
  decide

/-- C4 (amended): with redaction enabled, a non-null value in a
PII-named column is always replaced by the mask of its stringified
form; the result differs from the original unless the original is a
string that is already equal to its own mask (for instance the empty
string); masking keeps a 2-character prefix and suffix for lengths 5
to 8, a 3-character prefix and suffix for longer values, and fully
masks values of length at most 4. -/
theorem redact_pii_column_masks (column : String) (v : DValue)
    (h1 : is_pii_column column = true) (h2 : v ≠ DValue.null) :
    redact_column_value column v = DValue.str (mask_value (pyStr v))
    ∧ (∀ s, v = DValue.str s → mask_value s ≠ s → redact_column_value column v ≠ v)
    ∧ ((∀ s, v ≠ DValue.str s) → redact_column_value column v ≠ v)
    ∧ (∀ s : String, s.length ≤ 4 →
        mask_value s = String.mk (List.replicate s.length '*'))
    ∧ (∀ s : String, 4 < s.length → s.length ≤ 8 →
        mask_value s
          = String.mk (s.data.take 2 ++ List.replicate (s.length - 4) '*'
              ++ s.data.drop (s.length - 2)))
    ∧ (∀ s : String, 8 < s.length →
        mask_value s
          = String.mk (s.data.take 3 ++ List.replicate (s.length - 6) '*'
              ++ s.data.drop (s.length - 3))) := by
  have hmain : redact_column_value column v = DValue.str (mask_value (pyStr v)) := by
    cases v with
    | null => exact absurd rfl h2
    | str s => simp [redact_column_value, h1]
    | int n => simp [redact_column_value, h1]
    | bool b => simp [redact_column_value, h1]
  refine ⟨hmain, ?_, ?_, ?_, ?_, ?_⟩
  · intro s hv hmask
    rw [hmain, hv]
    simp [pyStr]
    intro hEq
    exact hmask hEq
  · intro hns hEq
    rw [hmain] at hEq
    exact hns (mask_value (pyStr v)) hEq.symm
  · intro s hle
    rw [mask_value]
    simp only [hle, if_true]
  · intro s h4 h8
    rw [mask_value]
    rw [if_neg (by omega), if_pos h8]
  · intro s h8
    rw [mask_value]
    rw [if_neg (by omega), if_neg (by omega)]

/-- C4 witness: the value john at x dot com in a PII-named column is
masked and differs from the original. -/
theorem redact_pii_column_masks_witness :
    (is_pii_column "customer_email" = true ∧ DValue.str "john@x.com" ≠ DValue.null)
    ∧ redact_column_value "customer_email" (DValue.str "john@x.com")
        = DValue.str (mask_value (pyStr (DValue.str "john@x.com")))
    ∧ redact_column_value "customer_email" (DValue.str "john@x.com")
        ≠ DValue.str "john@x.com" :=
  ⟨⟨by decide, by decide⟩,
    (redact_pii_column_masks "customer_email" (DValue.str "john@x.com")
      (by decide) (by decide)).1,
    (redact_pii_column_masks "customer_email" (DValue.str "john@x.com")
      (by decide) (by decide)).2.1 "john@x.com" rfl (by decide)⟩

/-! ### SHA-256 (hashlib.sha256)
Pure model of the hash used for dataset signatures
(catalog_import.py) and plan hashes (snowflake.py).  Words are natural
numbers reduced modulo 2 to the 32. -/

/-- The word modulus. -/
def w32 : Nat := 4294967296

/-- Truncated addition modulo 2 to the 32. -/
def add32 (a b : Nat) : Nat := (a + b) % w32

/-- Right rotation of a 32-bit word. -/
def rotr32 (k x : Nat) : Nat :=
  (x / 2 ^ k) + (x % 2 ^ k) * 2 ^ (32 - k)

/-- The 64 round constants (the fractional parts of the cube roots of
the first primes, written in decimal). -/
def shaK : List Nat :=
  [1116352408, 1899447441, 3049323471, 3921009573, 961987163, 1508970993,
   2453635748, 2870763221, 3624381080, 310598401, 607225278, 1426881987,
   1925078388, 2162078206, 2614888103, 3248222580, 3835390401, 4022224774,
   264347078, 604807628, 770255983, 1249150122, 1555081692, 1996064986,
   2554220882, 2821834349, 2952996808, 3210313671, 3336571891, 3584528711,
   113926993, 338241895, 666307205, 773529912, 1294757372, 1396182291,
   1695183700, 1986661051, 2177026350, 2456956037, 2730485921, 2820302411,
   3259730800, 3345764771, 3516065817, 3600352804, 4094571909, 275423344,
   430227734, 506948616, 659060556, 883997877, 958139571, 1322822218,
   1537002063, 1747873779, 1955562222, 2024104815, 2227730452, 2361852424,
   2428436474, 2756734187, 3204031479, 3329325298]

/-- The initial hash state (decimal). -/
def shaH0 : List Nat :=
  [1779033703, 3144134277, 1013904242, 2773480762, 1359893119, 2600822924,
   528734635, 1541459225]

/-- Small sigma 0 of the message schedule. -/
def ssig0 (x : Nat) : Nat :=
  (rotr32 7 x).xor ((rotr32 18 x).xor (x / 2 ^ 3))

/-- Small sigma 1 of the message schedule. -/
def ssig1 (x : Nat) : Nat :=
  (rotr32 17 x).xor ((rotr32 19 x).xor (x / 2 ^ 10))

/-- Big sigma 0 of the compression function. -/
def bsig0 (x : Nat) : Nat :=
  (rotr32 2 x).xor ((rotr32 13 x).xor (rotr32 22 x))

/-- Big sigma 1 of the compression function. -/
def bsig1 (x : Nat) : Nat :=
  (rotr32 6 x).xor ((rotr32 11 x).xor (rotr32 25 x))

/-- Choice function. -/
def shaCh (x y z : Nat) : Nat :=
  (x.land y).xor ((x.xor (w32 - 1)).land z)

/-- Majority function. -/
def shaMaj (x y z : Nat) : Nat :=
  ((x.land y).xor (x.land z)).xor (y.land z)

/-- Extend the 16 block words to 64 schedule words. -/
def shaExtend : Nat → List Nat → List Nat
  | 0, ws => ws
  | k + 1, ws =>
    let n := ws.length
    let next := (ssig1 (ws.getD (n - 2) 0) + ws.getD (n - 7) 0
      + ssig0 (ws.getD (n - 15) 0) + ws.getD (n - 16) 0) % w32
    shaExtend k (ws ++ [next])

/-- One round of the compression function; the state is the tuple
a b c d e f g h as a list of eight words. -/
def shaRound (st : List Nat) (wk : Nat × Nat) : List Nat :=
  match st with
  | [a, b, c, d, e, f, g, h] =>
    let t1 := (h + bsig1 e + shaCh e f g + wk.2 + wk.1) % w32
    let t2 := (bsig0 a + shaMaj a b c) % w32
    [(t1 + t2) % w32, a, b, c, (d + t1) % w32, e, f, g]
  | st => st

/-- Compress one 64-byte block (given as 16 words) into the state. -/
def shaCompress (st : List Nat) (block : List Nat) : List Nat :=
  let w := shaExtend 48 block
  let out := (w.zip shaK).foldl shaRound st
  (st.zip out).map (fun p => (p.1 + p.2) % w32)

/-- Big-endian bytes of a number, fixed width. -/
def beBytes : Nat → Nat → List Nat
  | 0, _ => []
  | k + 1, n => beBytes k (n / 256) ++ [n % 256]

/-- SHA-256 padding: the 0x80 byte, zeros to 56 modulo 64, then the
bit length as 8 big-endian bytes. -/
def shaPad (msg : List Nat) : List Nat :=
  let l := msg.length
  let z := (120 - ((l + 1) % 64)) % 64
  msg ++ 0x80 :: List.replicate z 0 ++ beBytes 8 (8 * l)

/-- Split a byte list into 32-bit big-endian words. -/
def bytesToWords : List Nat → List Nat
  | b0 :: b1 :: b2 :: b3 :: rest =>
    (b0 * 16777216 + b1 * 65536 + b2 * 256 + b3) :: bytesToWords rest
  | _ => []

/-- Split a word list into blocks of 16 words (fuel: the list length,
sixteen times more than needed, keeps the recursion structural). -/
def wordsToBlocksGo : Nat → List Nat → List (List Nat)
  | _, [] => []
  | 0, ws => [ws]
  | fuel + 1, ws =>
    if ws.length ≤ 16 then [ws]
    else ws.take 16 :: wordsToBlocksGo fuel (ws.drop 16)

/-- Split a word list into blocks of 16 words. -/
def wordsToBlocks (ws : List Nat) : List (List Nat) :=
  wordsToBlocksGo ws.length ws

/-- UTF-8 bytes of one character (Python str.encode). -/
def utf8Bytes (c : Char) : List Nat :=
  let n := c.toNat
  if n < 0x80 then [n]
  else if n < 0x800 then [0xc0 + n / 64, 0x80 + n % 64]
  else if n < 0x10000 then
    [0xe0 + n / 4096, 0x80 + (n / 64) % 64, 0x80 + n % 64]
  else
    [0xf0 + n / 262144, 0x80 + (n / 4096) % 64, 0x80 + (n / 64) % 64, 0x80 + n % 64]

/-- UTF-8 bytes of a string. -/
def utf8Encode (s : String) : List Nat :=
  s.data.flatMap utf8Bytes

/-- The eight digest words of a byte message. -/
def sha256Words (msg : List Nat) : List Nat :=
  (wordsToBlocks (bytesToWords (shaPad msg))).foldl shaCompress shaH0

/-- Lowercase hexadecimal digits of one word, fixed width 8. -/
def hexWord : Nat → Nat → List Char
  | 0, _ => []
  | k + 1, n => hexWord k (n / 16) ++ [(Nat.digitChar (n % 16))]

/-- hashlib.sha256(s.encode()).hexdigest(): the 64-character lowercase
hex digest of the UTF-8 encoding of a string. -/
def sha256hex (s : String) : String :=
  String.mk ((sha256Words (utf8Encode s)).flatMap (hexWord 8))

/-! ### Dataset signatures
(catalog_import.py, CatalogImportService._generate_dataset_signature,
lines 238-246) -/

/-- Column of a catalog dataset (models/catalog.py, class Column; the
description field plays no part in the signature and is omitted). -/
structure Column where
  name : String
  type : String
  nullable : Bool
deriving DecidableEq, Repr

/-- Catalog dataset (models/catalog.py, class Dataset); only the fields
read by the signature generator are modelled. -/
structure Dataset where
  name : String
  columns : List Column
deriving DecidableEq, Repr

/-- Python str() of a boolean, as interpolated by the f-string of the
signature generator. -/
def pyBoolStr (b : Bool) : String :=
  if b then "True" else "False"

/-- One canonical entry name:type:nullable of the signature string. -/
def columnEntry (c : Column) : String :=
  c.name ++ ":" ++ c.type ++ ":" ++ pyBoolStr c.nullable

/-- Python string comparison: lexicographic by code point. -/
def charListLe : List Char → List Char → Bool
  | [], _ => true
  | _ :: _, [] => false
  | a :: as, b :: bs =>
    if a = b then charListLe as bs else decide (a.toNat < b.toNat)

/-- The name order used as the sort key. -/
def colNameLe (a b : Column) : Prop :=
  charListLe a.name.data b.name.data = true

instance colNameLeDec : DecidableRel colNameLe := fun a b =>
  inferInstanceAs (Decidable (_ = true))

/-- The key order of the source: sorted(columns, key=name).  Python
sorted is a stable ascending sort by the key; insertionSort with the
name order is the same stable sort. -/
def sortColumns (cols : List Column) : List Column :=
  cols.insertionSort colNameLe

/-- CatalogImportService._generate_dataset_signature: the SHA-256 hex
digest of the pipe-joined canonical entries of the columns sorted by
name. -/
def dataset_signature (d : Dataset) : String :=
  sha256hex (String.intercalate "|" ((sortColumns d.columns).map columnEntry))

/-- Two sorted lists that are permutations of one another are equal,
provided the order is antisymmetric on the members of the first. -/
theorem eq_of_perm_of_sorted_on {α : Type} (r : α → α → Prop) :
    ∀ (l₁ l₂ : List α), l₁.Perm l₂ → l₁.Pairwise r → l₂.Pairwise r →
      (∀ a ∈ l₁, ∀ b ∈ l₁, r a b → r b a → a = b) → l₁ = l₂ := by
  intro l₁
  induction l₁ with
  | nil =>
    intro l₂ hp _ _ _
    exact (List.Perm.nil_eq hp).symm ▸ rfl
  | cons a t₁ ih =>
    intro l₂ hp hs₁ hs₂ hanti
    match l₂ with
    | [] => exact absurd hp.symm (by simp)
    | b :: t₂ =>
      have hab : a = b := by
        by_cases h : a = b
        · exact h
        · have ha2 : a ∈ b :: t₂ := hp.mem_iff.mp (by simp)
          have hb1 : b ∈ a :: t₁ := hp.mem_iff.mpr (by simp)
          have hat2 : a ∈ t₂ := by
            rcases List.mem_cons.mp ha2 with h1 | h1
            · exact absurd h1 h
            · exact h1
          have hbt1 : b ∈ t₁ := by
            rcases List.mem_cons.mp hb1 with h1 | h1
            · exact absurd h1.symm h
            · exact h1
          have hr1 : r a b := (List.pairwise_cons.mp hs₁).1 b hbt1
          have hr2 : r b a := (List.pairwise_cons.mp hs₂).1 a hat2
          exact hanti a (by simp) b (by simp [hbt1]) hr1 hr2
      subst hab
      have hpt : t₁.Perm t₂ := hp.cons_inv
      have := ih t₂ hpt (List.pairwise_cons.mp hs₁).2 (List.pairwise_cons.mp hs₂).2
        (fun x hx y hy => hanti x (by simp [hx]) y (by simp [hy]))
      rw [this]

/-- Characters with equal code points are equal. -/
theorem charToNat_inj {a b : Char} (h : a.toNat = b.toNat) : a = b := by
  ext
  simpa [Char.toNat] using h

theorem charListLe_total : ∀ (a b : List Char),
    charListLe a b = true ∨ charListLe b a = true := by
  intro a
  induction a with
  | nil => intro b; left; rfl
  | cons x as ih =>
    intro b
    cases b with
    | nil => right; rfl
    | cons y bs =>
      by_cases hxy : x = y
      · subst hxy
        rcases ih bs with h | h
        · left; simp [charListLe, h]
        · right; simp [charListLe, h]
      · have hne : x.toNat ≠ y.toNat := fun hEq => hxy (charToNat_inj hEq)
        rcases Nat.lt_or_ge x.toNat y.toNat with h | h
        · left; simp [charListLe, hxy, h]
        · right
          have hyx : y.toNat < x.toNat := by omega
          have hyx2 : ¬ (y = x) := fun hEq => hxy hEq.symm
          simp only [charListLe, if_neg hyx2]
          simpa using hyx

theorem charListLe_trans : ∀ (a b c : List Char),
    charListLe a b = true → charListLe b c = true → charListLe a c = true := by
  intro a
  induction a with
  | nil => intro b c _ _; rfl
  | cons x as ih =>
    intro b c h1 h2
    cases b with
    | nil => simp [charListLe] at h1
    | cons y bs =>
      cases c with
      | nil => simp [charListLe] at h2
      | cons z cs =>
        by_cases hxy : x = y <;> by_cases hyz : y = z
        · subst hxy; subst hyz
          simp only [charListLe, if_pos rfl] at h1 h2 ⊢
          exact ih bs cs h1 h2
        · subst hxy
          simp only [charListLe, if_neg hyz] at h2 ⊢
          exact h2
        · subst hyz
          simp only [charListLe, if_neg hxy] at h1 ⊢
          exact h1
        · simp only [charListLe, if_neg hxy] at h1
          simp only [charListLe, if_neg hyz] at h2
          simp only [decide_eq_true_eq] at h1 h2
          have hxz : x.toNat < z.toNat := Nat.lt_trans h1 h2
          have hne : x ≠ z := by
            intro hEq
            subst hEq
            omega
          simp [charListLe, hne, hxz]

theorem charListLe_antisymm : ∀ (a b : List Char),
    charListLe a b = true → charListLe b a = true → a = b := by
  intro a
  induction a with
  | nil =>
    intro b _ h2
    cases b with
    | nil => rfl
    | cons y bs => simp [charListLe] at h2
  | cons x as ih =>
    intro b h1 h2
    cases b with
    | nil => simp [charListLe] at h1
    | cons y bs =>
      by_cases hxy : x = y
      · subst hxy
        simp only [charListLe, if_pos rfl] at h1 h2
        rw [ih bs h1 h2]
      · simp only [charListLe, if_neg hxy, decide_eq_true_eq] at h1
        simp only [charListLe, if_neg (fun hEq => hxy (Eq.symm hEq)),
          decide_eq_true_eq] at h2
        omega

/-- C6 counterexample: with two distinct columns sharing the name A,
swapping the column list changes the signature, because the sort is
stable and keeps either relative order; so the unconditional
permutation-invariance claim is false. -/
theorem dataset_signature_not_perm_invariant :
    (([⟨"A", "int", true⟩, ⟨"A", "str", false⟩] : List Column).Perm
      [⟨"A", "str", false⟩, ⟨"A", "int", true⟩])
    ∧ dataset_signature ⟨"D", [⟨"A", "int", true⟩, ⟨"A", "str", false⟩]⟩
      ≠ dataset_signature ⟨"D", [⟨"A", "str", false⟩, ⟨"A", "int", true⟩]⟩ := by
  constructor
  · exact List.Perm.swap _ _ _
  · decide

/-- C6 (amended): the dataset signature is the SHA-256 hex digest of
the pipe-joined entries name:type:nullable of the columns stably
sorted by name; permuting the column list leaves the signature
unchanged whenever the column names are pairwise distinct (with
duplicate names the stable sort can keep different relative orders, so
a permutation may change the digest). -/
theorem dataset_signature_perm_invariant (d : Dataset) (cols2 : List Column)
    (hperm : d.columns.Perm cols2)
    (hnd : (d.columns.map Column.name).Nodup) :
    dataset_signature d
      = sha256hex (String.intercalate "|" ((sortColumns d.columns).map columnEntry))
    ∧ dataset_signature d = dataset_signature ⟨d.name, cols2⟩ := by
  refine ⟨rfl, ?_⟩
  have hsort : sortColumns d.columns = sortColumns cols2 := by
    haveI : IsTotal Column colNameLe :=
      ⟨fun a b => charListLe_total a.name.data b.name.data⟩
    haveI : IsTrans Column colNameLe :=
      ⟨fun a b c hab hbc => charListLe_trans a.name.data b.name.data c.name.data hab hbc⟩
    apply eq_of_perm_of_sorted_on colNameLe
    · exact ((List.perm_insertionSort _ _).trans hperm).trans
        (List.perm_insertionSort _ _).symm
    · exact List.sorted_insertionSort _ _
    · exact List.sorted_insertionSort _ _
    · intro a ha b hb hab hba
      have hmem : ∀ x ∈ sortColumns d.columns, x ∈ d.columns := by
        intro x hx
        exact (List.perm_insertionSort _ _).mem_iff.mp hx
      have hdata : a.name.data = b.name.data :=
        charListLe_antisymm a.name.data b.name.data hab hba
      have hname : a.name = b.name := by
        cases hna : a.name with
        | mk da =>
          cases hnb : b.name with
          | mk db =>
            rw [hna, hnb] at hdata
            simp at hdata
            rw [hdata]
      exact List.inj_on_of_nodup_map hnd (hmem a ha) (hmem b hb) hname
  unfold dataset_signature
  rw [hsort]

/-- C6 witness: a concrete two-column dataset with distinct names and
its reversal share the signature. -/
theorem dataset_signature_perm_invariant_witness :
    ((([⟨"B", "int", true⟩, ⟨"A", "str", false⟩] : List Column).Perm
        [⟨"A", "str", false⟩, ⟨"B", "int", true⟩])
      ∧ (([⟨"B", "int", true⟩, ⟨"A", "str", false⟩] : List Column).map Column.name).Nodup)
    ∧ dataset_signature ⟨"D", [⟨"B", "int", true⟩, ⟨"A", "str", false⟩]⟩
      = dataset_signature ⟨"D", [⟨"A", "str", false⟩, ⟨"B", "int", true⟩]⟩ :=
  ⟨⟨List.Perm.swap _ _ _, by decide⟩,
    (dataset_signature_perm_invariant ⟨"D", [⟨"B", "int", true⟩, ⟨"A", "str", false⟩]⟩
      [⟨"A", "str", false⟩, ⟨"B", "int", true⟩] (List.Perm.swap _ _ _) (by decide)).2⟩

/-! ### Scan estimate, EXPLAIN and SELECT
(snowflake.py, SnowflakeConnector.explain lines 313-352,
_estimate_scan_bytes lines 354-377, select lines 379-446) -/

/-- Value of a decimal digit run. -/
def digitsToNat (ds : List Char) : Nat :=
  ds.foldl (fun acc c => acc * 10 + (c.toNat - 48)) 0

/-- findall scanner for the size patterns digits, optional whitespace,
then a literal unit, case-insensitively (flag IGNORECASE); matches are
non-overlapping and a failed attempt resumes one character further. -/
def findNumLitGo (lit : List Char) : Nat → List Char → List Nat
  | _, [] => []
  | 0, _ => []
  | fuel + 1, c :: rest =>
    if isDigitChar c then
      let ds := (c :: rest).takeWhile isDigitChar
      let r2 := ((c :: rest).drop ds.length).dropWhile isSpaceChar
      if (r2.take lit.length).map Char.toUpper = lit then
        digitsToNat ds :: findNumLitGo lit fuel (r2.drop lit.length)
      else findNumLitGo lit fuel rest
    else findNumLitGo lit fuel rest

/-- The scanner above with enough fuel for the whole input. -/
def findNumLit (lit : List Char) (l : List Char) : List Nat :=
  findNumLitGo lit l.length l

/-- SnowflakeConnector._estimate_scan_bytes: sum of every number
followed by bytes, MB and GB in the plan text, with the unit
multipliers of the source. -/
def estimate_scan_bytes (planText : String) : Nat :=
  (findNumLit "BYTES".data planText.data).sum
    + (findNumLit "MB".data planText.data).sum * (1024 * 1024)
    + (findNumLit "GB".data planText.data).sum * (1024 * 1024 * 1024)

/-- Failure reasons of explain: a guardrail error or the pre-flight
scan budget check. -/
inductive ExplainErr where
  | guard : GuardErr → ExplainErr
  | scanBudgetExceeded : Nat → Int → ExplainErr
deriving DecidableEq, Repr

/-- Result payload of explain (the constant status field and the raw
explain_results rows of the source are omitted). -/
structure ExplainResult where
  plan_text : String
  plan_hash : String
  estimated_bytes : Nat
deriving DecidableEq, Repr

/-- SnowflakeConnector.explain as a function of the plan text returned
by the warehouse for EXPLAIN USING TEXT: validate, hash the plan,
estimate the scan bytes, and fail when a positive configured budget is
exceeded. -/
def explainRun (budget : Int) (allowed : List String) (sql planText : String) :
    Except ExplainErr ExplainResult :=
  match validate_sql allowed sql with
  | .error e => .error (.guard e)
  | .ok () =>
    if 0 < budget ∧ budget < (estimate_scan_bytes planText : Int) then
      .error (.scanBudgetExceeded (estimate_scan_bytes planText) budget)
    else
      .ok { plan_text := planText,
            plan_hash := String.mk ((sha256hex planText).data.take 16),
            estimated_bytes := estimate_scan_bytes planText }

/-- Python str.rstrip with a semicolon argument: remove trailing
semicolons only. -/
def rstripSemis (s : String) : String :=
  String.mk (s.data.reverse.dropWhile (fun c => c = ';')).reverse

/-- The limit rewrite of select (snowflake.py lines 388-391): when the
limit argument is truthy (not None and non-zero) and the uppercased
raw SQL does not contain the substring LIMIT, the trailing semicolons
are stripped and a LIMIT of the smaller of the argument and the sample
limit is appended; otherwise the SQL is executed unchanged. -/
def applySelectLimit (sampleLimit : Int) (limitArg : Option Int) (sql : String) : String :=
  match limitArg with
  | none => sql
  | some l =>
    if l ≠ 0 then
      if containsSub "LIMIT".data (sql.data.map Char.toUpper) then sql
      else rstripSemis sql ++ " LIMIT " ++ toString (min l sampleLimit)
    else sql

/-- Execution statistics from _get_query_history (lines 229-268); the
source returns an empty dictionary when the query is missing from the
history or the lookup fails, modelled by an Option around this record. -/
structure QueryStats where
  bytes_scanned : Nat
  rows : Nat
  warehouse : Option String
  role : Option String
  database : Option String
  schema : Option String
deriving DecidableEq, Repr

/-- The bytes_scanned lookup of select with its default of zero. -/
def bytesScannedOf (hist : Option QueryStats) : Nat :=
  match hist with
  | some h => h.bytes_scanned
  | none => 0

/-- Success payload of select (the stats dictionary is the history
record plus the measured elapsed milliseconds; plan_text is always the
empty string; warehouse and role of the payload repeat the stats and
are omitted). -/
structure SelectResult where
  query_id : String
  rows : List Row
  histStats : Option QueryStats
  elapsed_ms : Nat
  plan_text : String
deriving DecidableEq, Repr

/-- Outcome of select: the SQL actually sent to the cursor, the
returned payload and the warning log entries emitted on the way. -/
structure SelectOutcome where
  executed_sql : String
  result : SelectResult
  warnings : List String
deriving DecidableEq, Repr

/-- SnowflakeConnector.select as a function of the warehouse
interaction results (query id, fetched rows, history statistics,
measured elapsed time): validate, rewrite the limit, execute, then log
a warning, without failing, when a positive configured budget is
exceeded by the scanned bytes; the returned rows pass through PII
redaction. -/
def selectRun (budget sampleLimit : Int) (allowed : List String) (sql : String)
    (limitArg : Option Int) (queryId : String) (results : List Row)
    (hist : Option QueryStats) (elapsedMs : Nat) : Except GuardErr SelectOutcome :=
  match validate_sql allowed sql with
  | .error e => .error e
  | .ok () =>
    .ok { executed_sql := applySelectLimit sampleLimit limitArg sql,
          result := { query_id := queryId, rows := redact_sample_data results,
                      histStats := hist, elapsed_ms := elapsedMs, plan_text := "" },
          warnings :=
            if 0 < budget ∧ budget < (bytesScannedOf hist : Int) then
              ["Query exceeded scan budget"]
            else [] }

/-- C3: with a positive configured scan budget, explain fails whenever
the estimate derived from the plan exceeds the budget, while select
never fails on a post-execution breach: its payload is exactly the
normal success payload, identical to the payload of a run with the
budget disabled, and the breach surfaces only as a logged warning. -/
theorem scan_budget_semantics (budget : Int) :
    (∀ (allowed : List String) (sql planText : String) (r : ExplainResult),
      0 < budget → budget < (estimate_scan_bytes planText : Int) →
      explainRun budget allowed sql planText ≠ .ok r)
    ∧ (∀ (sampleLimit : Int) (allowed : List String) (sql : String)
        (limitArg : Option Int) (queryId : String) (results : List Row)
        (hist : Option QueryStats) (elapsedMs : Nat),
      validate_sql allowed sql = .ok () →
      0 < budget → budget < (bytesScannedOf hist : Int) →
      selectRun budget sampleLimit allowed sql limitArg queryId results hist elapsedMs
        = .ok { executed_sql := applySelectLimit sampleLimit limitArg sql,
                result := { query_id := queryId, rows := redact_sample_data results,
                            histStats := hist, elapsed_ms := elapsedMs, plan_text := "" },
                warnings := ["Query exceeded scan budget"] }
      ∧ (selectRun budget sampleLimit allowed sql limitArg queryId results hist
            elapsedMs).map (fun o => (o.executed_sql, o.result))
        = (selectRun 0 sampleLimit allowed sql limitArg queryId results hist
            elapsedMs).map (fun o => (o.executed_sql, o.result))) := by
  constructor
  · intro allowed sql planText r hb hest
    unfold explainRun
    cases hv : validate_sql allowed sql with
    | error e => simp
    | ok u =>
      cases u
      rw [if_pos ⟨hb, hest⟩]
      simp
  · intro sampleLimit allowed sql limitArg queryId results hist elapsedMs hv hb hbytes
    unfold selectRun
    rw [hv]
    constructor
    · rw [if_pos ⟨hb, hbytes⟩]
    · rfl

/-- C3 witness: budget one million; a plan scanning two and a half
million bytes makes explain fail, and a select that scanned the same
amount succeeds with the warning logged. -/
theorem scan_budget_semantics_witness :
    ((0 : Int) < 1000000
      ∧ (1000000 : Int) < (estimate_scan_bytes "TableScan 2500000 bytes" : Int)
      ∧ explainRun 1000000 [] "SELECT A FROM T" "TableScan 2500000 bytes"
          ≠ .ok { plan_text := "TableScan 2500000 bytes",
                  plan_hash := String.mk ((sha256hex "TableScan 2500000 bytes").data.take 16),
                  estimated_bytes := 2500000 })
    ∧ (validate_sql [] "SELECT A FROM T" = .ok ()
      ∧ (1000000 : Int) < (bytesScannedOf (some ⟨2500000, 10, none, none, none, none⟩) : Int)
      ∧ selectRun 1000000 1000 [] "SELECT A FROM T" (some 5) "qid" []
          (some ⟨2500000, 10, none, none, none, none⟩) 42
        = .ok { executed_sql := applySelectLimit 1000 (some 5) "SELECT A FROM T",
                result := { query_id := "qid", rows := redact_sample_data [],
                            histStats := some ⟨2500000, 10, none, none, none, none⟩,
                            elapsed_ms := 42, plan_text := "" },
                warnings := ["Query exceeded scan budget"] }) :=
  ⟨⟨by decide, by decide,
    (scan_budget_semantics 1000000).1 [] "SELECT A FROM T" "TableScan 2500000 bytes"
      _ (by decide) (by decide)⟩,
   ⟨by decide, by decide,
    ((scan_budget_semantics 1000000).2 1000 [] "SELECT A FROM T" (some 5) "qid" []
      (some ⟨2500000, 10, none, none, none, none⟩) 42
      (by decide) (by decide) (by decide)).1⟩⟩

/-- Modelled from the words of the spec for comparison with the source
behaviour: a statement has a LIMIT clause when the whole word LIMIT
occurs in its uppercased text. -/
def specHasLimitToken (sql : String) : Bool :=
  containsWholeWord "LIMIT".data (sql.data.map Char.toUpper)

/-- C7 counterexample: a zero limit argument is falsy, so nothing is
appended although the statement lacks a LIMIT clause; and a statement
containing LIMIT only inside the identifier DELIMITED, hence without a
LIMIT clause, is also executed unchanged because the source tests
substring containment, not a clause or token. -/
theorem select_limit_rewrite_gaps :
    (applySelectLimit 1000 (some 0) "SELECT A FROM T" = "SELECT A FROM T"
      ∧ "SELECT A FROM T" ≠ "SELECT A FROM T LIMIT 0")
    ∧ (specHasLimitToken "SELECT DELIMITED FROM T" = false
      ∧ applySelectLimit 1000 (some 5) "SELECT DELIMITED FROM T"
          = "SELECT DELIMITED FROM T"
      ∧ "SELECT DELIMITED FROM T" ≠ "SELECT DELIMITED FROM T LIMIT 5") := by
  decide

/-- C7 (amended): for every validated select call, the SQL actually
executed is the input with trailing semicolons stripped and a LIMIT of
the smaller of the limit argument and the sample limit appended, when
the limit argument is present and non-zero and the uppercased input
does not contain the substring LIMIT; in every other case (absent or
zero limit, or the substring present anywhere, clause or not) the
input is executed unchanged. -/
theorem select_executed_sql (budget sampleLimit : Int) (allowed : List String)
    (sql : String) (limitArg : Option Int) (queryId : String) (results : List Row)
    (hist : Option QueryStats) (elapsedMs : Nat)
    (hv : validate_sql allowed sql = .ok ()) :
    (selectRun budget sampleLimit allowed sql limitArg queryId results hist
        elapsedMs).map (fun o => o.executed_sql)
      = .ok (match limitArg with
             | none => sql
             | some l =>
               if l ≠ 0 ∧ containsSub "LIMIT".data (sql.data.map Char.toUpper) = false
               then rstripSemis sql ++ " LIMIT " ++ toString (min l sampleLimit)
               else sql) := by
  have happ : applySelectLimit sampleLimit limitArg sql
      = (match limitArg with
         | none => sql
         | some l =>
           if l ≠ 0 ∧ containsSub "LIMIT".data (sql.data.map Char.toUpper) = false
           then rstripSemis sql ++ " LIMIT " ++ toString (min l sampleLimit)
           else sql) := by
    cases limitArg with
    | none => rfl
    | some l =>
      by_cases hl : l = 0
      · subst hl
        simp [applySelectLimit]
      · cases hc : containsSub "LIMIT".data (sql.data.map Char.toUpper) with
        | true => simp [applySelectLimit, hl, hc]
        | false => simp [applySelectLimit, hl, hc]
  unfold selectRun
  rw [hv]
  simp only [Except.map]
  rw [happ]

/-- C7 witness: a select with limit 5 on a statement without the LIMIT
substring and with a trailing semicolon. -/
theorem select_executed_sql_witness :
    validate_sql [] "SELECT A FROM T;" = .ok ()
    ∧ (selectRun 0 1000 [] "SELECT A FROM T;" (some 5) "qid" [] none 7).map
        (fun o => o.executed_sql)
      = .ok "SELECT A FROM T LIMIT 5" :=
  ⟨by decide,
    by
      rw [select_executed_sql 0 1000 [] "SELECT A FROM T;" (some 5) "qid" [] none 7
        (by decide)]
      decide⟩

/-! ### Uniqueness test evaluation
(services/runner.py, RunnerService._analyze_test_result lines 387-398
and _execute_single_test lines 251-332) -/

/-- Tolerance settings of a test (models/tests.py, class
TestTolerance); the abs and pct fields are floating point and play no
part in the uniqueness analysis, so only dup_rows is modelled. -/
structure TestTolerance where
  dup_rows : Option Int
deriving DecidableEq, Repr

/-- Python dict.get with a default. -/
def rowGet (row : Row) (key : String) (dflt : DValue) : DValue :=
  match row.find? (fun kv => kv.1 = key) with
  | some kv => kv.2
  | none => dflt

/-- One term of the DUPLICATE_COUNT sum: Python adds integers and
booleans (bool is an int subclass) and raises TypeError on None or a
string. -/
def dupCountTerm : DValue → Except String Int
  | .int n => .ok n
  | .bool b => .ok (if b then 1 else 0)
  | .null => .error "TypeError"
  | .str _ => .error "TypeError"

/-- sum(row.get(DUPLICATE_COUNT, 0) for row in rows). -/
def sumDupCounts : List Row → Except String Int
  | [] => .ok 0
  | row :: rest => do
    let t ← dupCountTerm (rowGet row "DUPLICATE_COUNT" (.int 0))
    let s ← sumDupCounts rest
    .ok (t + s)

/-- Metrics of the uniqueness branch. -/
structure UniqMetrics where
  duplicate_groups : Nat
  total_duplicates : Int
  tolerance : Int
deriving DecidableEq, Repr

/-- The uniqueness branch of _analyze_test_result: violations is the
row count; the tolerance is dup_rows when a tolerance object is
configured and 0 otherwise; comparing against a configured tolerance
whose dup_rows is unset raises (int against None), as does a
non-numeric DUPLICATE_COUNT value. -/
def analyze_uniqueness (tolerance : Option TestTolerance) (rows : List Row) :
    Except String (String × Nat × UniqMetrics) := do
  let violations := rows.length
  let total ← sumDupCounts rows
  let tol ← (match tolerance with
             | none => Except.ok 0
             | some t =>
               match t.dup_rows with
               | some n => Except.ok n
               | none => Except.error "TypeError")
  .ok (if (violations : Int) ≤ tol then "pass" else "fail", violations,
       { duplicate_groups := violations, total_duplicates := total, tolerance := tol })

/-- The test result fields the claim is about (models/tests.py, class
TestResult): the violations field defaults to None and
sample_rows_uri to None on the error path of _execute_single_test. -/
structure TestResultM where
  status : String
  violations : Option Nat
  sample_rows_uri : Option String
deriving DecidableEq, Repr

/-- The URI returned by RunnerService._store_sample_rows (runner.py
lines 436-459). -/
def sample_rows_uri_for (runId testName : String) : String :=
  "artifact://runs/" ++ runId ++ "/samples/" ++ testName ++ "_violations.json"

/-- The analysis part of _execute_single_test for a uniqueness test,
given the rows returned by the select: on success the violations count
is recorded and sample rows are stored exactly when it is positive; an
exception is caught and recorded as an error result with the model
defaults. -/
def execute_uniqueness_test (runId testName : String)
    (tolerance : Option TestTolerance) (rows : List Row) : TestResultM :=
  match analyze_uniqueness tolerance rows with
  | .ok (status, violations, _) =>
    { status := status, violations := some violations,
      sample_rows_uri :=
        if violations > 0 then some (sample_rows_uri_for runId testName) else none }
  | .error _ =>
    { status := "error", violations := none, sample_rows_uri := none }

/-- The tolerance the uniqueness comparison actually uses: 0 without a
tolerance object, dup_rows with one (none meaning the comparison
raises). -/
def effectiveDupTolerance : Option TestTolerance → Option Int
  | none => some 0
  | some t => t.dup_rows

/-- C5 counterexample: a uniqueness test with a configured tolerance
whose dup_rows is unset does not pass with the default 0: the
comparison raises and the test is recorded as an error with no
violations count, so the claim fails at this input (zero rows would
demand status pass with violations 0). -/
theorem uniqueness_partial_tolerance_errors :
    (execute_uniqueness_test "r1" "t1" (some ⟨none⟩) []).status = "error"
    ∧ (execute_uniqueness_test "r1" "t1" (some ⟨none⟩) []).status ≠ "pass"
    ∧ (execute_uniqueness_test "r1" "t1" (some ⟨none⟩) []).violations ≠ some 0 := by
  decide

/-- C5 (amended): for every uniqueness test whose tolerance, when
configured, has dup_rows set (the default 0 applies only when no
tolerance object is configured) and whose DUPLICATE_COUNT values are
numeric, the evaluator sets violations to the number of returned rows,
status pass exactly when violations is at most the tolerance and fail
otherwise, and records a sample-rows URI exactly when violations is
positive. -/
theorem uniqueness_analysis (runId testName : String)
    (tolerance : Option TestTolerance) (rows : List Row) (tol total : Int)
    (htol : effectiveDupTolerance tolerance = some tol)
    (hsum : sumDupCounts rows = .ok total) :
    execute_uniqueness_test runId testName tolerance rows
      = { status := if (rows.length : Int) ≤ tol then "pass" else "fail",
          violations := some rows.length,
          sample_rows_uri :=
            if rows.length > 0 then some (sample_rows_uri_for runId testName)
            else none } := by
  unfold execute_uniqueness_test analyze_uniqueness
  rw [hsum]
  cases tolerance with
  | none =>
    simp only [effectiveDupTolerance, Option.some.injEq] at htol
    subst htol
    rfl
  | some t =>
    cases t with
    | mk d =>
      cases d with
      | none =>
        rw [effectiveDupTolerance] at htol
        exact absurd htol (by simp)
      | some n =>
        have hn : tol = n := by
          rw [effectiveDupTolerance] at htol
          exact (Option.some.inj htol).symm
        subst hn
        rfl

/-- The two duplicate-group rows of the concrete scenario of the
spec. -/
def uniqScenarioRows : List Row :=
  [[("ORDER_ID", .int 1), ("DUPLICATE_COUNT", .int 3)],
   [("ORDER_ID", .int 2), ("DUPLICATE_COUNT", .int 2)]]

/-- C5 witness: the scenario of the spec, two duplicate groups under
tolerance 0: status fail, violations 2, sample URI set. -/
theorem uniqueness_analysis_witness :
    (effectiveDupTolerance (some ⟨some 0⟩) = some 0
      ∧ sumDupCounts uniqScenarioRows = .ok 5)
    ∧ execute_uniqueness_test "r1" "orders_unique" (some ⟨some 0⟩) uniqScenarioRows
      = { status := "fail", violations := some 2,
          sample_rows_uri :=
            some "artifact://runs/r1/samples/orders_unique_violations.json" } :=
  ⟨⟨by decide, by decide⟩, by
    rw [uniqueness_analysis "r1" "orders_unique" (some ⟨some 0⟩) uniqScenarioRows 0 5
      (by decide) (by decide)]
    decide⟩

/-! ### Run cancellation
(services/runner.py, RunnerService.cancel_run lines 675-682) -/

/-- The run summary fields cancel_run touches (models/reports.py,
class RunSummary): the status literal and the end timestamp. -/
structure RunSummaryM where
  status : String
  ended_at : Option Nat
deriving DecidableEq, Repr

/-- The in-memory run dictionary of the service, as an association
list with unique keys (a Python dict). -/
abbrev RunStore := List (String × RunSummaryM)

/-- dict.get on the run store. -/
def lookupRun (st : RunStore) (runId : String) : Option RunSummaryM :=
  match st.find? (fun kv => kv.1 = runId) with
  | some kv => some kv.2
  | none => none

/-- RunnerService.cancel_run: when the run exists and is running, mark
it cancelled with an end time and return True; otherwise change
nothing and return False. -/
def cancel_run (st : RunStore) (runId : String) (now : Nat) : Bool × RunStore :=
  match lookupRun st runId with
  | some r =>
    if r.status = "running" then
      (true, st.map (fun kv =>
        if kv.1 = runId then (kv.1, { status := "cancelled", ended_at := some now })
        else kv))
    else (false, st)
  | none => (false, st)

theorem lookupRun_after_cancel_update (runId : String) (now : Nat) :
    ∀ (st : RunStore) (r : RunSummaryM), lookupRun st runId = some r →
      lookupRun (st.map (fun kv =>
          if kv.1 = runId then (kv.1, { status := "cancelled", ended_at := some now })
          else kv)) runId
        = some { status := "cancelled", ended_at := some now } := by
  intro st
  induction st with
  | nil => intro r h; simp [lookupRun] at h
  | cons kv t ih =>
    intro r h
    by_cases hk : kv.1 = runId
    · simp only [List.map_cons, if_pos hk]
      rw [lookupRun, List.find?_cons_of_pos _ (by simpa using hk)]
    · rw [lookupRun, List.find?_cons_of_neg _ (by simpa using hk)] at h
      simp only [List.map_cons, if_neg hk]
      rw [lookupRun, List.find?_cons_of_neg _ (by simpa using hk)]
      exact ih r h

/-- C8: cancel_run returns True exactly when the run exists with
status running; a False return leaves the store untouched; and after a
successful cancellation a repeated cancel is a no-op returning False. -/
theorem cancel_run_spec (st : RunStore) (runId : String) (now : Nat) :
    ((cancel_run st runId now).1 = true
      ↔ ∃ r, lookupRun st runId = some r ∧ r.status = "running")
    ∧ ((cancel_run st runId now).1 = false → (cancel_run st runId now).2 = st)
    ∧ ((cancel_run st runId now).1 = true →
        ∀ now2, cancel_run (cancel_run st runId now).2 runId now2
          = (false, (cancel_run st runId now).2)) := by
  refine ⟨?_, ?_, ?_⟩
  · cases hl : lookupRun st runId with
    | none =>
      simp only [cancel_run, hl]
      constructor
      · intro h; exact absurd h (by simp)
      · rintro ⟨r, hr, _⟩; exact absurd hr (by simp)
    | some r =>
      simp only [cancel_run, hl]
      by_cases hs : r.status = "running"
      · rw [if_pos hs]
        exact ⟨fun _ => ⟨r, rfl, hs⟩, fun _ => rfl⟩
      · rw [if_neg hs]
        constructor
        · intro h; exact absurd h (by simp)
        · rintro ⟨r2, hr2, hs2⟩
          cases Option.some.inj hr2
          exact absurd hs2 hs
  · cases hl : lookupRun st runId with
    | none => simp [cancel_run, hl]
    | some r =>
      simp only [cancel_run, hl]
      by_cases hs : r.status = "running"
      · rw [if_pos hs]; intro h; exact absurd h (by simp)
      · rw [if_neg hs]; intro _; rfl
  · intro h1 now2
    cases hl : lookupRun st runId with
    | none =>
      simp only [cancel_run, hl] at h1
      exact absurd h1 (by simp)
    | some r =>
      by_cases hs : r.status = "running"
      · have hcr : cancel_run st runId now
            = (true, st.map (fun kv =>
                if kv.1 = runId then
                  (kv.1, { status := "cancelled", ended_at := some now })
                else kv)) := by
          simp only [cancel_run, hl]
          rw [if_pos hs]
        rw [hcr]
        have hupd := lookupRun_after_cancel_update runId now st r hl
        simp only [cancel_run, hupd]
        rw [if_neg (by decide)]
      · simp only [cancel_run, hl] at h1
        rw [if_neg hs] at h1
        exact absurd h1 (by simp)

/-- C8 witness: a store with one running run r1: cancel returns True,
a second cancel returns False and leaves the cancelled state. -/
theorem cancel_run_spec_witness :
    ((cancel_run [("r1", ⟨"running", none⟩)] "r1" 5).1 = true
      ↔ ∃ r, lookupRun [("r1", ⟨"running", none⟩)] "r1" = some r
          ∧ r.status = "running")
    ∧ cancel_run [("r1", ⟨"running", none⟩)] "r1" 5
        = (true, [("r1", ⟨"cancelled", some 5⟩)])
    ∧ cancel_run (cancel_run [("r1", ⟨"running", none⟩)] "r1" 5).2 "r1" 9
        = (false, [("r1", ⟨"cancelled", some 5⟩)]) :=
  ⟨(cancel_run_spec [("r1", ⟨"running", none⟩)] "r1" 5).1,
   by decide,
   by
     rw [(cancel_run_spec [("r1", ⟨"running", none⟩)] "r1" 5).2.2 (by decide) 9]
     decide⟩

/-! ### AI adapter prompt validation
(services/local_ollama.py, LocalOllamaAdapter.generate lines 82-103) -/

/-- The two prompt checks at the top of generate, returning the
ValueError message when one fires.  Python truthiness of a string is
emptiness, that is zero length. -/
def validate_prompt (prompt : String) : Option String :=
  if prompt.length = 0 then some "Prompt cannot be empty"
  else if prompt.length > 10000 then some "Prompt too long (max 10000 characters)"
  else none

/-- LocalOllamaAdapter.generate as a function of the cached
availability flag, the health check outcome that would be consulted,
the Ollama call outcome and the deterministic stub text: validation
errors first; then the availability is resolved (cached value, else
the health check) and a failure of the real generation falls back to
the stub. -/
def ollama_generate (prompt : String) (cachedAvailable : Option Bool) (healthOk : Bool)
    (ollamaOutcome : Except String String) (stubText : String) : Except String String :=
  match validate_prompt prompt with
  | some e => .error e
  | none =>
    if (match cachedAvailable with | some b => b | none => healthOk) then
      match ollamaOutcome with
      | .ok t => .ok t
      | .error _ => .ok stubText
    else .ok stubText

/-- C9: generate fails with the ValueError for the empty prompt and
for every prompt longer than 10000 characters, whatever the cached
availability, the health outcome and the network outcome are: the
checks run before any availability check or provider call. -/
theorem ollama_generate_rejects_bad_prompts (prompt : String)
    (cachedAvailable : Option Bool) (healthOk : Bool)
    (ollamaOutcome : Except String String) (stubText : String)
    (h : prompt.length = 0 ∨ 10000 < prompt.length) :
    ollama_generate prompt cachedAvailable healthOk ollamaOutcome stubText
      = .error (if prompt.length = 0 then "Prompt cannot be empty"
                else "Prompt too long (max 10000 characters)") := by
  unfold ollama_generate validate_prompt
  rcases h with h | h
  · rw [if_pos h, if_pos h]
  · have hne : ¬ prompt.length = 0 := by omega
    rw [if_neg hne, if_pos h, if_neg hne]

/-- C9 witness: the empty prompt and a 10001-character prompt are both
rejected whatever the environment does. -/
theorem ollama_generate_rejects_bad_prompts_witness :
    ollama_generate "" (some true) true (.ok "text") "stub"
      = .error "Prompt cannot be empty"
    ∧ (10000 < (String.mk (List.replicate 10001 'x')).length
      ∧ ollama_generate (String.mk (List.replicate 10001 'x')) none false
          (.error "down") "stub"
        = .error "Prompt too long (max 10000 characters)") :=
  ⟨by
    rw [ollama_generate_rejects_bad_prompts "" (some true) true (.ok "text") "stub"
      (Or.inl rfl)]
    rfl,
   by
     have hlen : (String.mk (List.replicate 10001 'x')).length = 10001 := by
       show (List.replicate 10001 'x').length = 10001
       exact List.length_replicate 10001 'x' 
     refine ⟨by omega, ?_⟩
     rw [ollama_generate_rejects_bad_prompts _ none false (.error "down") "stub"
       (Or.inr (by omega))]
     rw [if_neg (by omega)]⟩
